import Mathlib

/-!
# Verification of the bounded-depth web crawler (`src/main.py`)

Shallow embedding of the crawler: the HTTP transport, the HTML link
extractor (BeautifulSoup), the robots-directive evaluator
(`RobotFileParser.can_fetch`) and the wall clock are external
collaborators, modelled as components of an abstract `World`.  The
repository's own code — `fetch_html`, `parse_links`, `is_crawlable`,
`crawl`, `start_crawl` — is translated function by function.  File
contents are modelled as the string accumulated by the sink writes;
every iteration of the crawl loop is a step of an explicit step
function recording a chronological event trace.
-/

namespace Crawler

/-! ## String helpers (models of the Python stdlib operations used) -/

/-- Model of Python `str.split(c)` restricted to what the code consumes:
returns the segment before the first occurrence of `c` together with the
remaining segments (so `s.split(c)[0]` is the first component). -/
def pySplit1 (c : Char) : List Char → List Char × List (List Char)
  | [] => ([], [])
  | x :: xs =>
    let r := pySplit1 c xs
    if x = c then ([], r.1 :: r.2) else (x :: r.1, r.2)

/-- All segments of Python `str.split(c)`. -/
def pySplitAll (c : Char) (l : List Char) : List (List Char) :=
  (pySplit1 c l).1 :: (pySplit1 c l).2

/-- `output_file.split('.')[0]` from `crawl` (line 144). -/
def pyFirstDotSegment (s : String) : String :=
  ⟨(pySplit1 '.' s.data).1⟩

/-- Model of Python `str.startswith(pre)`. -/
def pyStartsWith (s pre : String) : Bool :=
  pre.data.isPrefixOf s.data

/-- Characters legal after the first character of a URL scheme,
per `urllib.parse`. -/
def isSchemeChar (c : Char) : Bool :=
  c.isAlphanum || c = '+' || c = '-' || c = '.'

/-- Model of `urllib.parse.urlparse(url).scheme` and `.netloc`:
the scheme is the lower-cased text before the first `:` when that text
is a well-formed scheme token; the netloc is the text after a leading
`//` of the remainder, up to the next `/`, `?` or `#`. -/
def urlparseSchemeNetloc (url : String) : String × String :=
  let l := url.data
  let pre := l.takeWhile (· ≠ ':')
  let hasScheme : Bool :=
    decide (pre.length < l.length) &&
      (match pre with
       | [] => false
       | c :: cs => c.isAlpha && cs.all isSchemeChar)
  let rest := if hasScheme then l.drop (pre.length + 1) else l
  let scheme := if hasScheme then (⟨pre.map Char.toLower⟩ : String) else ""
  let netloc : String :=
    match rest with
    | '/' :: '/' :: t => ⟨t.takeWhile (fun c => c ≠ '/' && c ≠ '?' && c ≠ '#')⟩
    | _ => ""
  (scheme, netloc)

/-- `urlparse(url).netloc`. -/
def netlocOf (url : String) : String := (urlparseSchemeNetloc url).2

/-- `urlparse(url).scheme`. -/
def schemeOf (url : String) : String := (urlparseSchemeNetloc url).1

/-- `f"{parsed_url.scheme}://{parsed_url.netloc}/robots.txt"` (line 165). -/
def robotsTxtUrl (url : String) : String :=
  schemeOf url ++ "://" ++ netlocOf url ++ "/robots.txt"

/-! ## The external world -/

/-- Outcome of `client.get(url)` for a page fetch: either a response
(status code and body text) or a raised `httpx.RequestError`. -/
inductive PageResp where
  | resp (code : Nat) (text : String)
  | reqError
deriving DecidableEq

/-- The external collaborators: the HTTP transport (for pages and for
robots.txt), the robots-directive evaluator (`RobotFileParser.can_fetch`
applied to a parsed body, modelled opaquely on the body text), the HTML
link extractor (the list of `href` attributes BeautifulSoup finds in a
document, `None` for an `<a>` without `href`), and the behaviour of the
filesystem (whether the initial `open(..., "w")` raises `OSError`, and
an optional number of append operations after which an append raises). -/
structure World where
  robots : String → Option (Nat × String)
  canFetch : String → String → Bool
  page : String → PageResp
  hrefs : String → List (Option String)
  openFails : Bool
  appendBudget : Option Nat

/-- Whether the `n`-th file-append operation (0-based) raises `OSError`. -/
def appendFailsAt (w : World) (n : Nat) : Bool :=
  match w.appendBudget with
  | none => false
  | some b => decide (b ≤ n)

/-! ## `fetch_html` (lines 35–66) -/

/-- `fetch_html`: sleeps, issues the GET, calls `raise_for_status()`.
A 2xx response returns the body text; `httpx.HTTPStatusError` (any
non-success status, 403 included) and `httpx.RequestError` are caught
inside the function, logged, and `""` is returned.  Totality of this
definition is the model of "no exception escapes to the caller". -/
def fetch_html (w : World) (url : String) : String :=
  match w.page url with
  | .resp code text => if 200 ≤ code ∧ code < 300 then text else ""
  | .reqError => ""

/-! ## `parse_links` (lines 68–88) -/

/-- Resolution of one `href` attribute: `None` and `""` are falsy and
skipped; an href starting with `"http"` is kept verbatim; any other
href is concatenated after `base_url`. -/
def resolveHref (base_url : String) : Option String → Option String
  | none => none
  | some href =>
    if href = "" then none
    else if pyStartsWith href "http" then some href
    else some (base_url ++ href)

/-- `parse_links(html, base_url)` given the hrefs the external extractor
finds in `html`: the set of resolved links (a deduplicated list models
the Python `set`). -/
def parse_links (hrefs : List (Option String)) (base_url : String) : List String :=
  (hrefs.filterMap (resolveHref base_url)).dedup

/-! ## `is_crawlable` (lines 90–111) -/

/-- `is_crawlable(url, robots_txt_url, client)`: GET the robots URL;
on a 200 response parse the directives and evaluate `can_fetch("*", url)`
(modelled by `w.canFetch body url`); on any other status fall through to
`return True`; a raised `httpx.RequestError` is caught and also falls
through to `return True`. -/
def is_crawlable (w : World) (url robots_txt_url : String) : Bool :=
  match w.robots robots_txt_url with
  | some (code, body) => if code = 200 then w.canFetch body url else true
  | none => true

/-! ## Sink record rendering

Models of the Python stdlib serializers the sink calls:
`json.dump({"url": url}, file)` with its default `ensure_ascii=True`
escaping, and `csv.writer(file).writerow([url])` with the default
dialect (delimiter `,`, quotechar `"`, `QUOTE_MINIMAL`, line
terminator `"\r\n"`). -/

/-- The sixteen lower-case hex digits. -/
def hexChars : List Char := "0123456789abcdef".data

/-- Lower-case hex digit of `n < 16`. -/
def hexDig (n : Nat) : Char := hexChars.getD n 'f'

/-- Four lower-case hex digits of `n % 0x10000`. -/
def hex4 (n : Nat) : List Char :=
  [hexDig (n / 4096 % 16), hexDig (n / 256 % 16), hexDig (n / 16 % 16), hexDig (n % 16)]

/-- `json.dump` escaping of one character under `ensure_ascii=True`:
the short escapes, `\u00xx` for other control characters, the character
itself for printable ASCII, and `\uxxxx` (with a surrogate pair above
the BMP) for everything non-ASCII. -/
def jsonEscapeChar (c : Char) : List Char :=
  if c = '"' then ['\\', '"']
  else if c = '\\' then ['\\', '\\']
  else if c = '\n' then ['\\', 'n']
  else if c = '\r' then ['\\', 'r']
  else if c = '\t' then ['\\', 't']
  else if c.toNat = 8 then ['\\', 'b']
  else if c.toNat = 12 then ['\\', 'f']
  else if c.toNat < 32 then '\\' :: 'u' :: hex4 c.toNat
  else if c.toNat ≤ 126 then [c]
  else if c.toNat < 65536 then '\\' :: 'u' :: hex4 c.toNat
  else
    ('\\' :: 'u' :: hex4 (55296 + (c.toNat - 65536) / 1024)) ++
      ('\\' :: 'u' :: hex4 (56320 + (c.toNat - 65536) % 1024))

/-- `json.dump` escaping of a whole string. -/
def jsonEscape (l : List Char) : List Char :=
  match l with
  | [] => []
  | c :: cs => jsonEscapeChar c ++ jsonEscape cs

/-- The text `json.dump({"url": url}, file)` emits (default separators,
single-pair dict): `{"url": "<escaped url>"}`. -/
def jsonRecord (url : String) : String :=
  "\x7b\"url\": \"" ++ (⟨jsonEscape url.data⟩ : String) ++ "\"\x7d"

/-- The opening fragment `file.write('\x7b"urls": [')` (line 152). -/
def jsonHeader : String := "\x7b\"urls\": ["

/-- The closing fragment `file.write("]\x7d")` (line 194). -/
def jsonCloser : String := "]\x7d"

/-- Whether `csv.writer` (QUOTE_MINIMAL) must quote the field. -/
def csvNeedsQuote (l : List Char) : Bool :=
  l.any (fun c => c = ',' || c = '"' || c = '\r' || c = '\n')

/-- Doubling of quote characters inside a quoted CSV field. -/
def csvEscape (l : List Char) : List Char :=
  match l with
  | [] => []
  | c :: cs => if c = '"' then '"' :: '"' :: csvEscape cs else c :: csvEscape cs

/-- The encoding of one field by `csv.writer`'s default dialect. -/
def csvField (url : String) : List Char :=
  if csvNeedsQuote url.data then '"' :: csvEscape url.data ++ ['"'] else url.data

/-- The full line `csv.writer(file).writerow([url])` appends
(default line terminator `"\r\n"`). -/
def csvLine (url : String) : String :=
  ⟨csvField url ++ ['\r', '\n']⟩

/-! ## The crawl session state machine (`crawl`, lines 114–199) -/

/-- Session configuration: the arguments of `crawl` that the loop
reads (the politeness arguments `user_agent`/`delay`/`quiet` only shape
the HTTP requests and logging, which live in the `World`). -/
structure Cfg where
  baseUrl : String
  maxDepth : Nat
  format : String
  outputFile : String
  timestamp : String

/-- `output_filename = f"{output_file.split('.')[0]}_{timestamp}.{format}"`
(line 144). -/
def outputFilename (cfg : Cfg) : String :=
  pyFirstDotSegment cfg.outputFile ++ "_" ++ cfg.timestamp ++ "." ++ cfg.format

/-- One observable event of a loop iteration, annotated with the depth
of the dequeued frontier entry. -/
inductive Ev where
  | dequeue (url : String) (depth : Nat)
  | discard (url : String) (depth : Nat)
  | visit (url : String) (depth : Nat)
  | robotsQuery (url : String) (depth : Nat)
  | robotsSkip (url : String) (depth : Nat)
  | fetch (url : String) (depth : Nat)
  | enqueue (url : String) (depth : Nat)
  | write (url : String) (depth : Nat)
deriving DecidableEq

/-- Mutable state of the crawl loop: the frontier queue, the visited
set (a duplicate-free list in insertion order), the JSON `first_entry`
flag, the accumulated contents of the output file, the number of append
operations performed, and the event trace. -/
structure St where
  queue : List (String × Nat)
  visited : List String
  firstEntry : Bool
  file : String
  appends : Nat
  events : List Ev
deriving DecidableEq

/-- State after `queue.put((base_url, 0))` and the initial
`open(output_file_path, "w")` block (lines 134–153): for the json
format the opening fragment has been written, otherwise the file was
created empty. -/
def initSt (cfg : Cfg) : St :=
  { queue := [(cfg.baseUrl, 0)]
    visited := []
    firstEntry := true
    file := if cfg.format = "json" then jsonHeader else ""
    appends := 0
    events := [] }

/-- The fragment one sink append adds to the file, and the new
`first_entry` flag (lines 176–191). -/
def appendRecord (cfg : Cfg) (firstEntry : Bool) (url : String) : String × Bool :=
  if cfg.format = "json" then
    ((if firstEntry then "" else ",") ++ jsonRecord url ++ "\n", false)
  else if cfg.format = "csv" then
    (csvLine url, firstEntry)
  else
    (url ++ "\n", firstEntry)

/-- Result of one iteration of the `while` loop: the loop exits
(queue empty), an `OSError` is raised by a sink append, or the loop
continues in a new state. -/
inductive StepRes where
  | finished
  | ioErr (s : St)
  | next (s : St)
deriving DecidableEq

/-- One iteration of the loop body (lines 155–191). -/
def crawlStep (w : World) (cfg : Cfg) (s : St) : StepRes :=
  match s.queue with
  | [] => .finished
  | (url, depth) :: rest =>
    if url ∈ s.visited ∨ cfg.maxDepth ≤ depth then
      .next { s with
        queue := rest
        events := s.events ++ [.dequeue url depth, .discard url depth] }
    else
      let visited' := s.visited ++ [url]
      let ev₁ := s.events ++ [.dequeue url depth, .visit url depth, .robotsQuery url depth]
      if is_crawlable w url (robotsTxtUrl url) = false then
        .next { s with
          queue := rest
          visited := visited'
          events := ev₁ ++ [.robotsSkip url depth] }
      else
        let html := fetch_html w url
        let links := if html = "" then [] else parse_links (w.hrefs html) cfg.baseUrl
        let ev₂ := ev₁ ++ [.fetch url depth] ++ links.map (fun l => .enqueue l (depth + 1))
        if appendFailsAt w s.appends then
          .ioErr { s with
            queue := rest ++ links.map (fun l => (l, depth + 1))
            visited := visited'
            events := ev₂ }
        else
          let rec' := appendRecord cfg s.firstEntry url
          .next { queue := rest ++ links.map (fun l => (l, depth + 1))
                  visited := visited'
                  firstEntry := rec'.2
                  file := s.file ++ rec'.1
                  appends := s.appends + 1
                  events := ev₂ ++ [.write url depth] }

/-- How a run of the loop ended within the given fuel. -/
inductive LoopStatus where
  | finished
  | ioErr
  | fuelOut
deriving DecidableEq

/-- Iterate `crawlStep` at most `fuel` times. -/
def crawlLoop (w : World) (cfg : Cfg) : Nat → St → St × LoopStatus
  | 0, s => (s, .fuelOut)
  | fuel + 1, s =>
    match crawlStep w cfg s with
    | .finished => (s, .finished)
    | .ioErr s' => (s', .ioErr)
    | .next s' => crawlLoop w cfg fuel s'

/-- The whole loop from the initial state. -/
def crawlRun (w : World) (cfg : Cfg) (fuel : Nat) : St × LoopStatus :=
  crawlLoop w cfg fuel (initSt cfg)

/-- How `crawl` terminates: an uncaught exception propagates out of it
(`raised`), or it returns a value.  `returned none` is the
`except (HTTPStatusError, RequestError, ValueError)` branch
(line 199); `returned (some name)` is line 195. -/
inductive Outcome where
  | raised
  | returned (r : Option String)
deriving DecidableEq

/-- The contents of the output file at the end of the run: the closing
fragment is appended only when the format is json, the frontier drained
and the closing append did not itself raise (lines 192–194). -/
def finalFile (w : World) (cfg : Cfg) (fuel : Nat) : String :=
  let r := crawlRun w cfg fuel
  if cfg.format = "json" ∧ r.2 = .finished ∧ appendFailsAt w r.1.appends = false then
    r.1.file ++ jsonCloser
  else
    r.1.file

/-- `crawl` (lines 114–199).  `none` means the run did not terminate
within `fuel` iterations.  An `OSError` from `open` or from an append is
not in the `except` tuple at line 196, so it yields `.raised`; when the
frontier drains (and, for json, the closing append succeeds) the
function returns the output filename. -/
def crawl (w : World) (cfg : Cfg) (fuel : Nat) : Option Outcome :=
  if w.openFails then some .raised
  else
    match crawlRun w cfg fuel with
    | (s, .finished) =>
      if cfg.format = "json" ∧ appendFailsAt w s.appends then some .raised
      else some (.returned (some (outputFilename cfg)))
    | (_, .ioErr) => some .raised
    | (_, .fuelOut) => none

/-! ## `start_crawl` (lines 202–241) -/

/-- Domain normalization (lines 226–229). -/
def normalizeDomain (domain : String) : String :=
  if pyStartsWith domain "https://" then domain else "https://" ++ domain

/-- The configuration `start_crawl` builds: the seed URL is the
normalized domain and `output_file` is its netloc (lines 231–233). -/
def startCrawlCfg (domain : String) (maxDepth : Nat) (format timestamp : String) : Cfg :=
  { baseUrl := normalizeDomain domain
    maxDepth := maxDepth
    format := format
    outputFile := netlocOf (normalizeDomain domain)
    timestamp := timestamp }

/-- The output filename a `start_crawl` session generates. -/
def startCrawlFilename (domain timestamp format : String) : String :=
  outputFilename (startCrawlCfg domain 2 format timestamp)

/-- Process exit status (lines 237–241): a returned filename logs
success and exits 0; a `None` return raises `typer.Exit(1)`; an
exception propagating out of `crawl` terminates the interpreter with
status 1. -/
def exitCode : Outcome → Nat
  | .raised => 1
  | .returned none => 1
  | .returned (some _) => 0

/-! ## Trace observations -/

/-- The URLs appended to the sink, in append order. -/
def writtenUrls (es : List Ev) : List String :=
  es.filterMap fun e =>
    match e with
    | .write u _ => some u
    | _ => none

/-- The URLs added to the visited set by a trace, newest first,
starting from the accumulator `vs`. -/
def visitAcc (vs : List String) : List Ev → List String
  | [] => vs
  | .visit u _ :: es => visitAcc (u :: vs) es
  | _ :: es => visitAcc vs es

/-- Every sink write in the trace is preceded by an insertion of the
same URL into the visited set (`vs` accumulates the insertions seen so
far). -/
def writesAfterVisit (vs : List String) : List Ev → Prop
  | [] => True
  | .visit u _ :: es => writesAfterVisit (u :: vs) es
  | .write u _ :: es => u ∈ vs ∧ writesAfterVisit vs es
  | _ :: es => writesAfterVisit vs es

/-- Depth annotation discipline: any processing event (visited-set
insertion, robots lookup, robots skip, fetch, sink write) happens at a
depth strictly below `maxD`. -/
def evDepthOk (maxD : Nat) : Ev → Prop
  | .visit _ d => d < maxD
  | .robotsQuery _ d => d < maxD
  | .robotsSkip _ d => d < maxD
  | .fetch _ d => d < maxD
  | .write _ d => d < maxD
  | _ => True

/-! ## File rendering -/

/-- The characters the sink appends for the given URLs, threading the
json `first_entry` flag. -/
def renderFrom (cfg : Cfg) (first : Bool) : List String → List Char
  | [] => []
  | u :: us =>
    ((appendRecord cfg first u).1).data ++ renderFrom cfg (appendRecord cfg first u).2 us

/-- The json `first_entry` flag after appending the given URLs. -/
def flagAfter (cfg : Cfg) (first : Bool) : List String → Bool
  | [] => first
  | u :: us => flagAfter cfg (appendRecord cfg first u).2 us

/-! ## Trace lemmas -/

theorem visitAcc_append (vs : List String) (a b : List Ev) :
    visitAcc vs (a ++ b) = visitAcc (visitAcc vs a) b := by
  induction a generalizing vs with
  | nil => rfl
  | cons e es ih => cases e <;> simp [visitAcc, ih]

theorem writesAfterVisit_append (vs : List String) (a b : List Ev) :
    writesAfterVisit vs (a ++ b) ↔
      writesAfterVisit vs a ∧ writesAfterVisit (visitAcc vs a) b := by
  induction a generalizing vs with
  | nil => simp [writesAfterVisit, visitAcc]
  | cons e es ih => cases e <;> simp [writesAfterVisit, visitAcc, ih, and_assoc]

theorem writtenUrls_append (a b : List Ev) :
    writtenUrls (a ++ b) = writtenUrls a ++ writtenUrls b := by
  simp [writtenUrls]

theorem writtenUrls_enqueues (links : List String) (d : Nat) :
    writtenUrls (links.map fun l => Ev.enqueue l d) = [] := by
  induction links with
  | nil => rfl
  | cons l ls ih => simp [writtenUrls, ih]

theorem visitAcc_enqueues (vs : List String) (links : List String) (d : Nat) :
    visitAcc vs (links.map fun l => Ev.enqueue l d) = vs := by
  induction links generalizing vs with
  | nil => rfl
  | cons l ls ih => simpa [visitAcc] using ih vs

theorem writesAfterVisit_enqueues (vs : List String) (links : List String) (d : Nat) :
    writesAfterVisit vs (links.map fun l => Ev.enqueue l d) := by
  induction links with
  | nil => trivial
  | cons l ls ih => simp [writesAfterVisit, ih]

theorem evDepthOk_enqueues (maxD : Nat) (links : List String) (d : Nat) :
    ∀ e ∈ links.map fun l => Ev.enqueue l d, evDepthOk maxD e := by
  intro e he
  rcases List.mem_map.mp he with ⟨l, _, rfl⟩
  trivial

theorem renderFrom_snoc (cfg : Cfg) (first : Bool) (us : List String) (u : String) :
    renderFrom cfg first (us ++ [u]) =
      renderFrom cfg first us ++ ((appendRecord cfg (flagAfter cfg first us) u).1).data := by
  induction us generalizing first with
  | nil => simp [renderFrom, flagAfter]
  | cons v vs ih => simp [renderFrom, flagAfter, ih]

theorem flagAfter_snoc (cfg : Cfg) (first : Bool) (us : List String) (u : String) :
    flagAfter cfg first (us ++ [u]) =
      (appendRecord cfg (flagAfter cfg first us) u).2 := by
  induction us generalizing first with
  | nil => rfl
  | cons v vs ih => simp [flagAfter, ih]

/-! ## The loop invariant -/

/-- Invariant of the crawl loop tying the event trace to the mutable
state. -/
structure Inv (cfg : Cfg) (s : St) : Prop where
  depthOk : ∀ e ∈ s.events, evDepthOk cfg.maxDepth e
  visits : ∀ u, u ∈ visitAcc [] s.events ↔ u ∈ s.visited
  wavOk : writesAfterVisit [] s.events
  writesNodup : (writtenUrls s.events).Nodup
  writesVisited : ∀ u ∈ writtenUrls s.events, u ∈ s.visited
  fileEq : s.file.data =
    (if cfg.format = "json" then jsonHeader.data else []) ++
      renderFrom cfg true (writtenUrls s.events)
  flagEq : s.firstEntry = flagAfter cfg true (writtenUrls s.events)

theorem inv_init (cfg : Cfg) : Inv cfg (initSt cfg) := by
  constructor <;> simp [initSt, writtenUrls, visitAcc, writesAfterVisit, renderFrom, flagAfter]
  split <;> simp

@[simp] theorem writtenUrls_nil : writtenUrls [] = [] := rfl

@[simp] theorem writtenUrls_cons_dequeue (u : String) (d : Nat) (es : List Ev) :
    writtenUrls (Ev.dequeue u d :: es) = writtenUrls es := rfl

@[simp] theorem writtenUrls_cons_discard (u : String) (d : Nat) (es : List Ev) :
    writtenUrls (Ev.discard u d :: es) = writtenUrls es := rfl

@[simp] theorem writtenUrls_cons_visit (u : String) (d : Nat) (es : List Ev) :
    writtenUrls (Ev.visit u d :: es) = writtenUrls es := rfl

@[simp] theorem writtenUrls_cons_robotsQuery (u : String) (d : Nat) (es : List Ev) :
    writtenUrls (Ev.robotsQuery u d :: es) = writtenUrls es := rfl

@[simp] theorem writtenUrls_cons_robotsSkip (u : String) (d : Nat) (es : List Ev) :
    writtenUrls (Ev.robotsSkip u d :: es) = writtenUrls es := rfl

@[simp] theorem writtenUrls_cons_fetch (u : String) (d : Nat) (es : List Ev) :
    writtenUrls (Ev.fetch u d :: es) = writtenUrls es := rfl

@[simp] theorem writtenUrls_cons_enqueue (u : String) (d : Nat) (es : List Ev) :
    writtenUrls (Ev.enqueue u d :: es) = writtenUrls es := rfl

@[simp] theorem writtenUrls_cons_write (u : String) (d : Nat) (es : List Ev) :
    writtenUrls (Ev.write u d :: es) = u :: writtenUrls es := rfl

theorem writtenUrls_chunk_discard (url : String) (depth : Nat) :
    writtenUrls [Ev.dequeue url depth, Ev.discard url depth] = [] := rfl

theorem writtenUrls_chunk_robots (url : String) (depth : Nat) :
    writtenUrls [Ev.dequeue url depth, Ev.visit url depth, Ev.robotsQuery url depth,
      Ev.robotsSkip url depth] = [] := rfl

theorem writtenUrls_chunk_fetch (url : String) (depth : Nat) :
    writtenUrls [Ev.dequeue url depth, Ev.visit url depth, Ev.robotsQuery url depth,
      Ev.fetch url depth] = [] := rfl

theorem writtenUrls_chunk_write (url : String) (depth : Nat) :
    writtenUrls [Ev.write url depth] = [url] := rfl

theorem inv_discard (cfg : Cfg) (s : St) (url : String) (depth : Nat)
    (rest : List (String × Nat)) (h : Inv cfg s) :
    Inv cfg { s with
      queue := rest
      events := s.events ++ [.dequeue url depth, .discard url depth] } := by
  have hW : writtenUrls (s.events ++ [.dequeue url depth, .discard url depth]) =
      writtenUrls s.events := by
    simp [writtenUrls_append, writtenUrls_chunk_discard]
  constructor
  case depthOk =>
    intro e he
    simp only [List.mem_append, List.mem_cons, List.not_mem_nil, or_false] at he
    rcases he with he | rfl | rfl
    · exact h.depthOk e he
    · trivial
    · trivial
  case visits =>
    intro u
    simp only [visitAcc_append, visitAcc]
    exact h.visits u
  case wavOk =>
    simp [writesAfterVisit_append, writesAfterVisit, h.wavOk]
  case writesNodup =>
    rw [hW]; exact h.writesNodup
  case writesVisited =>
    intro u hu
    rw [hW] at hu
    exact h.writesVisited u hu
  case fileEq =>
    rw [hW]; exact h.fileEq
  case flagEq =>
    rw [hW]; exact h.flagEq

theorem depthOk_append {maxD : Nat} {a b : List Ev}
    (ha : ∀ e ∈ a, evDepthOk maxD e) (hb : ∀ e ∈ b, evDepthOk maxD e) :
    ∀ e ∈ a ++ b, evDepthOk maxD e := by
  intro e he
  rcases List.mem_append.mp he with he | he
  exacts [ha e he, hb e he]

theorem inv_robotsSkip (cfg : Cfg) (s : St) (url : String) (depth : Nat)
    (rest : List (String × Nat)) (h : Inv cfg s) (hd : depth < cfg.maxDepth) :
    Inv cfg { s with
      queue := rest
      visited := s.visited ++ [url]
      events := s.events ++ [.dequeue url depth, .visit url depth, .robotsQuery url depth] ++
        [.robotsSkip url depth] } := by
  have hW : writtenUrls (s.events ++ [.dequeue url depth, .visit url depth,
      .robotsQuery url depth] ++ [.robotsSkip url depth]) = writtenUrls s.events := by
    simp [writtenUrls_append]
  constructor
  case depthOk =>
    refine depthOk_append (depthOk_append h.depthOk ?_) ?_
    · intro e he
      simp only [List.mem_cons, List.not_mem_nil, or_false] at he
      rcases he with rfl | rfl | rfl
      · trivial
      · exact hd
      · exact hd
    · intro e he
      simp only [List.mem_cons, List.not_mem_nil, or_false] at he
      subst he
      exact hd
  case visits =>
    intro u
    simp only [visitAcc_append, visitAcc]
    simp [h.visits u, List.mem_append, or_comm]
  case wavOk =>
    simp [writesAfterVisit_append, writesAfterVisit, h.wavOk]
  case writesNodup =>
    rw [hW]; exact h.writesNodup
  case writesVisited =>
    intro u hu
    rw [hW] at hu
    exact List.mem_append_left _ (h.writesVisited u hu)
  case fileEq =>
    rw [hW]; exact h.fileEq
  case flagEq =>
    rw [hW]; exact h.flagEq

theorem inv_write (cfg : Cfg) (s : St) (url : String) (depth : Nat)
    (rest : List (String × Nat)) (links : List String)
    (h : Inv cfg s) (hd : depth < cfg.maxDepth) (hu : url ∉ s.visited) :
    Inv cfg
      { queue := rest ++ links.map fun l => (l, depth + 1)
        visited := s.visited ++ [url]
        firstEntry := (appendRecord cfg s.firstEntry url).2
        file := s.file ++ (appendRecord cfg s.firstEntry url).1
        appends := s.appends + 1
        events := s.events ++ [.dequeue url depth, .visit url depth, .robotsQuery url depth] ++
            [.fetch url depth] ++ (links.map fun l => Ev.enqueue l (depth + 1)) ++
            [.write url depth] } := by
  have hWu : url ∉ writtenUrls s.events := fun hw => hu (h.writesVisited url hw)
  have hW : writtenUrls (s.events ++ [.dequeue url depth, .visit url depth,
      .robotsQuery url depth] ++ [.fetch url depth] ++
      (links.map fun l => Ev.enqueue l (depth + 1)) ++ [.write url depth]) =
      writtenUrls s.events ++ [url] := by
    simp [writtenUrls_append, writtenUrls_enqueues]
  constructor
  case depthOk =>
    refine depthOk_append (depthOk_append (depthOk_append (depthOk_append h.depthOk ?_) ?_)
      (evDepthOk_enqueues _ _ _)) ?_
    · intro e he
      simp only [List.mem_cons, List.not_mem_nil, or_false] at he
      rcases he with rfl | rfl | rfl
      · trivial
      · exact hd
      · exact hd
    · intro e he
      simp only [List.mem_cons, List.not_mem_nil, or_false] at he
      subst he
      exact hd
    · intro e he
      simp only [List.mem_cons, List.not_mem_nil, or_false] at he
      subst he
      exact hd
  case visits =>
    intro u
    simp only [visitAcc_append, visitAcc, visitAcc_enqueues]
    simp [h.visits u, List.mem_append, or_comm]
  case wavOk =>
    simp [writesAfterVisit_append, writesAfterVisit, writesAfterVisit_enqueues,
      visitAcc_append, visitAcc, visitAcc_enqueues, h.wavOk]
  case writesNodup =>
    rw [hW]
    simp only [List.nodup_append, List.nodup_cons, List.not_mem_nil, not_false_iff,
      List.nodup_nil, and_true, true_and]
    exact ⟨h.writesNodup, fun a ha hb => hWu (by simpa [List.eq_of_mem_singleton hb] using ha)⟩
  case writesVisited =>
    intro u hu'
    rw [hW] at hu'
    rcases List.mem_append.mp hu' with hu' | hu'
    · exact List.mem_append_left _ (h.writesVisited u hu')
    · simp [List.eq_of_mem_singleton hu']
  case fileEq =>
    rw [String.data_append, hW, renderFrom_snoc, h.fileEq, ← h.flagEq, List.append_assoc]
  case flagEq =>
    rw [hW, flagAfter_snoc, ← h.flagEq]

theorem inv_ioErr (cfg : Cfg) (s : St) (url : String) (depth : Nat)
    (rest : List (String × Nat)) (links : List String)
    (h : Inv cfg s) (hd : depth < cfg.maxDepth) :
    Inv cfg { s with
      queue := rest ++ links.map fun l => (l, depth + 1)
      visited := s.visited ++ [url]
      events := s.events ++ [.dequeue url depth, .visit url depth, .robotsQuery url depth] ++
          [.fetch url depth] ++ (links.map fun l => Ev.enqueue l (depth + 1)) } := by
  have hW : writtenUrls (s.events ++ [.dequeue url depth, .visit url depth,
      .robotsQuery url depth] ++ [.fetch url depth] ++
      (links.map fun l => Ev.enqueue l (depth + 1))) = writtenUrls s.events := by
    simp [writtenUrls_append, writtenUrls_enqueues]
  constructor
  case depthOk =>
    refine depthOk_append (depthOk_append (depthOk_append h.depthOk ?_) ?_)
      (evDepthOk_enqueues _ _ _)
    · intro e he
      simp only [List.mem_cons, List.not_mem_nil, or_false] at he
      rcases he with rfl | rfl | rfl
      · trivial
      · exact hd
      · exact hd
    · intro e he
      simp only [List.mem_cons, List.not_mem_nil, or_false] at he
      subst he
      exact hd
  case visits =>
    intro u
    simp only [visitAcc_append, visitAcc, visitAcc_enqueues]
    simp [h.visits u, List.mem_append, or_comm]
  case wavOk =>
    simp [writesAfterVisit_append, writesAfterVisit, writesAfterVisit_enqueues,
      visitAcc_append, visitAcc, visitAcc_enqueues, h.wavOk]
  case writesNodup =>
    rw [hW]; exact h.writesNodup
  case writesVisited =>
    intro u hu'
    rw [hW] at hu'
    exact List.mem_append_left _ (h.writesVisited u hu')
  case fileEq =>
    rw [hW]; exact h.fileEq
  case flagEq =>
    rw [hW]; exact h.flagEq

/-- Every step of the loop preserves the invariant, whether it
continues or aborts on a sink `OSError`. -/
theorem inv_step (w : World) (cfg : Cfg) {s s' : St} (h : Inv cfg s)
    (hstep : crawlStep w cfg s = .next s' ∨ crawlStep w cfg s = .ioErr s') :
    Inv cfg s' := by
  rcases hq : s.queue with _ | ⟨⟨url, depth⟩, rest⟩
  · rcases hstep with hstep | hstep <;> rw [crawlStep, hq] at hstep <;> exact absurd hstep (by simp)
  · rw [crawlStep, hq] at hstep
    dsimp only at hstep
    by_cases hg : url ∈ s.visited ∨ cfg.maxDepth ≤ depth
    · rw [if_pos hg] at hstep
      rcases hstep with hstep | hstep
      · simp only [StepRes.next.injEq] at hstep
        rw [← hstep]
        exact inv_discard cfg s url depth rest h
      · exact absurd hstep (by simp)
    · rw [if_neg hg] at hstep
      push_neg at hg
      obtain ⟨hu, hd⟩ := hg
      by_cases hr : is_crawlable w url (robotsTxtUrl url) = false
      · rw [if_pos hr] at hstep
        rcases hstep with hstep | hstep
        · simp only [StepRes.next.injEq] at hstep
          rw [← hstep]
          exact inv_robotsSkip cfg s url depth rest h hd
        · exact absurd hstep (by simp)
      · rw [if_neg hr] at hstep
        by_cases ha : appendFailsAt w s.appends = true
        · rw [if_pos ha] at hstep
          rcases hstep with hstep | hstep
          · exact absurd hstep (by simp)
          · simp only [StepRes.ioErr.injEq] at hstep
            rw [← hstep]
            exact inv_ioErr cfg s url depth rest _ h hd
        · rw [if_neg ha] at hstep
          rcases hstep with hstep | hstep
          · simp only [StepRes.next.injEq] at hstep
            rw [← hstep]
            exact inv_write cfg s url depth rest _ h hd hu
          · exact absurd hstep (by simp)

/-- The invariant holds after any number of loop iterations. -/
theorem inv_loop (w : World) (cfg : Cfg) (fuel : Nat) (s : St) (h : Inv cfg s) :
    Inv cfg (crawlLoop w cfg fuel s).1 := by
  induction fuel generalizing s with
  | zero => exact h
  | succ n ih =>
    rw [crawlLoop]
    rcases hstep : crawlStep w cfg s with _ | s' | s'
    · exact h
    · exact inv_step w cfg h (Or.inr hstep)
    · exact ih s' (inv_step w cfg h (Or.inl hstep))

/-- The invariant holds of every (partial or complete) run of `crawl`. -/
theorem inv_run (w : World) (cfg : Cfg) (fuel : Nat) :
    Inv cfg (crawlRun w cfg fuel).1 :=
  inv_loop w cfg fuel (initSt cfg) (inv_init cfg)

theorem mem_visitAcc (u : String) (es : List Ev) :
    ∀ vs, u ∈ visitAcc vs es → u ∈ vs ∨ ∃ d, Ev.visit u d ∈ es := by
  induction es with
  | nil => exact fun vs h => Or.inl h
  | cons e es ih =>
    intro vs h
    cases e with
    | visit v d =>
      rcases ih (v :: vs) (by simpa [visitAcc] using h) with hv | ⟨d', hd'⟩
      · rcases List.mem_cons.mp hv with rfl | hv
        · exact Or.inr ⟨d, List.mem_cons_self _ _⟩
        · exact Or.inl hv
      · exact Or.inr ⟨d', List.mem_cons_of_mem _ hd'⟩
    | dequeue v d =>
      rcases ih vs (by simpa [visitAcc] using h) with hv | ⟨d', hd'⟩
      · exact Or.inl hv
      · exact Or.inr ⟨d', List.mem_cons_of_mem _ hd'⟩
    | discard v d =>
      rcases ih vs (by simpa [visitAcc] using h) with hv | ⟨d', hd'⟩
      · exact Or.inl hv
      · exact Or.inr ⟨d', List.mem_cons_of_mem _ hd'⟩
    | robotsQuery v d =>
      rcases ih vs (by simpa [visitAcc] using h) with hv | ⟨d', hd'⟩
      · exact Or.inl hv
      · exact Or.inr ⟨d', List.mem_cons_of_mem _ hd'⟩
    | robotsSkip v d =>
      rcases ih vs (by simpa [visitAcc] using h) with hv | ⟨d', hd'⟩
      · exact Or.inl hv
      · exact Or.inr ⟨d', List.mem_cons_of_mem _ hd'⟩
    | fetch v d =>
      rcases ih vs (by simpa [visitAcc] using h) with hv | ⟨d', hd'⟩
      · exact Or.inl hv
      · exact Or.inr ⟨d', List.mem_cons_of_mem _ hd'⟩
    | enqueue v d =>
      rcases ih vs (by simpa [visitAcc] using h) with hv | ⟨d', hd'⟩
      · exact Or.inl hv
      · exact Or.inr ⟨d', List.mem_cons_of_mem _ hd'⟩
    | write v d =>
      rcases ih vs (by simpa [visitAcc] using h) with hv | ⟨d', hd'⟩
      · exact Or.inl hv
      · exact Or.inr ⟨d', List.mem_cons_of_mem _ hd'⟩

/-! ## A concrete session used as a witness input -/

/-- A small deterministic world: the seed page links to a relative
path and an absolute one, every other page is a 404, robots.txt is
unreachable everywhere, and the filesystem never fails. -/
def testWorld : World :=
  { robots := fun _ => none
    canFetch := fun _ _ => true
    page := fun u => if u = "https://example.com" then .resp 200 "PAGE1" else .resp 404 ""
    hrefs := fun h => if h = "PAGE1" then [some "/a", some "http://b.com", none, some ""] else []
    openFails := false
    appendBudget := none }

/-- A session over `testWorld` in the default txt format. -/
def testCfg : Cfg :=
  { baseUrl := "https://example.com"
    maxDepth := 2
    format := "txt"
    outputFile := "example.com"
    timestamp := "20240101_000000" }

/-! ## Claim C1 -/

/-- **C1.**  In every run of `crawl`, a dequeued `(url, depth)` pair
with `depth ≥ max_depth` is discarded before the robots lookup, the
fetch and the sink write: every robots-lookup, fetch and sink-write
event of the trace carries a depth strictly below `max_depth`, and
every URL in the visited set was inserted by a `visit` event whose
dequeued depth is strictly below `max_depth`. -/
theorem depth_bound_invariant (w : World) (cfg : Cfg) (fuel : Nat) :
    (∀ u d, (Ev.visit u d ∈ (crawlRun w cfg fuel).1.events ∨
        Ev.robotsQuery u d ∈ (crawlRun w cfg fuel).1.events ∨
        Ev.fetch u d ∈ (crawlRun w cfg fuel).1.events ∨
        Ev.write u d ∈ (crawlRun w cfg fuel).1.events) → d < cfg.maxDepth) ∧
    (∀ u ∈ (crawlRun w cfg fuel).1.visited,
      ∃ d, Ev.visit u d ∈ (crawlRun w cfg fuel).1.events ∧ d < cfg.maxDepth) := by
  have hinv := inv_run w cfg fuel
  constructor
  · intro u d hmem
    rcases hmem with hm | hm | hm | hm <;> exact hinv.depthOk _ hm
  · intro u hu
    have hm := (hinv.visits u).mpr hu
    rcases mem_visitAcc u _ [] hm with hv | ⟨d, hd⟩
    · exact absurd hv (List.not_mem_nil u)
    · exact ⟨d, hd, hinv.depthOk _ hd⟩

/-- Witness for C1: in the `testWorld` session the seed is visited at
depth `0 < 2`, and the theorem's hypotheses are dischargeable. -/
theorem depth_bound_invariant_witness :
    ∃ d, Ev.visit "https://example.com" d ∈ (crawlRun testWorld testCfg 10).1.events ∧
      d < testCfg.maxDepth :=
  (depth_bound_invariant testWorld testCfg 10).2 "https://example.com" (by decide)

/-! ## Claim C2 -/

/-- **C2.**  In every run of `crawl`, every URL appended to the sink
was inserted into the visited set earlier in the trace
(`writesAfterVisit`), and the sequence of sink-written URLs has no
duplicate, so each URL is written at most once per session. -/
theorem sink_write_once_after_visit (w : World) (cfg : Cfg) (fuel : Nat) :
    writesAfterVisit [] (crawlRun w cfg fuel).1.events ∧
    (writtenUrls (crawlRun w cfg fuel).1.events).Nodup ∧
    (∀ u ∈ writtenUrls (crawlRun w cfg fuel).1.events,
      u ∈ (crawlRun w cfg fuel).1.visited) :=
  ⟨(inv_run w cfg fuel).wavOk, (inv_run w cfg fuel).writesNodup,
    (inv_run w cfg fuel).writesVisited⟩

/-- Witness for C2: the membership hypothesis of the last conjunct is
dischargeable on the concrete session. -/
theorem sink_write_once_after_visit_witness :
    "https://example.com" ∈ (crawlRun testWorld testCfg 10).1.visited :=
  (sink_write_once_after_visit testWorld testCfg 10).2.2 "https://example.com" (by decide)

/-! ## Step-shape lemmas -/

/-- The accept branch of the loop body in full: head dequeued, not yet
visited, below the depth bound, robots allows, append succeeds. -/
theorem crawlStep_accept (w : World) (cfg : Cfg) (s : St) (url : String) (depth : Nat)
    (rest : List (String × Nat))
    (hq : s.queue = (url, depth) :: rest)
    (hu : url ∉ s.visited) (hd : depth < cfg.maxDepth)
    (hr : is_crawlable w url (robotsTxtUrl url) = true)
    (ha : appendFailsAt w s.appends = false) :
    crawlStep w cfg s = .next
      { queue := rest ++ (if fetch_html w url = "" then []
            else parse_links (w.hrefs (fetch_html w url)) cfg.baseUrl).map
            fun l => (l, depth + 1)
        visited := s.visited ++ [url]
        firstEntry := (appendRecord cfg s.firstEntry url).2
        file := s.file ++ (appendRecord cfg s.firstEntry url).1
        appends := s.appends + 1
        events := s.events ++ [.dequeue url depth, .visit url depth, .robotsQuery url depth] ++
            [.fetch url depth] ++
            ((if fetch_html w url = "" then []
              else parse_links (w.hrefs (fetch_html w url)) cfg.baseUrl).map
              fun l => Ev.enqueue l (depth + 1)) ++
            [.write url depth] } := by
  rw [crawlStep, hq]
  dsimp only
  rw [if_neg (by simp [hu]; omega), if_neg (by simp [hr]), if_neg (by simp [ha])]

/-! ## Claim C4 -/

/-- **C4.**  The robots checker is fail-open: a transport error on
the robots.txt fetch, or any non-200 status, makes `is_crawlable`
return `True` without consulting the directives; only a 200 response
evaluates `can_fetch("*", url)` on the parsed body. -/
theorem robots_fail_open (w : World) (url robots_txt_url : String) :
    (w.robots robots_txt_url = none → is_crawlable w url robots_txt_url = true) ∧
    (∀ code body, w.robots robots_txt_url = some (code, body) → code ≠ 200 →
      is_crawlable w url robots_txt_url = true) ∧
    (∀ body, w.robots robots_txt_url = some (200, body) →
      is_crawlable w url robots_txt_url = w.canFetch body url) := by
  refine ⟨fun h => ?_, fun code body h hc => ?_, fun body h => ?_⟩
  · simp [is_crawlable, h]
  · simp [is_crawlable, h, hc]
  · simp [is_crawlable, h]

/-- A world whose robots.txt fetch raises a transport error on every
origin while a 200 robots body would deny everything: fail-open must
ignore the latter. -/
def testDownRobotsWorld : World :=
  { testWorld with robots := fun _ => none, canFetch := fun _ _ => false }

/-- Witness for C4: with the robots fetch failing, the seed stays
crawlable. -/
theorem robots_fail_open_witness :
    is_crawlable testDownRobotsWorld "https://example.com"
      "https://example.com/robots.txt" = true :=
  (robots_fail_open testDownRobotsWorld "https://example.com"
    "https://example.com/robots.txt").1 rfl

/-! ## Claim C5 -/

/-- **C5.**  A 403 page response never escapes `fetch_html` (the
function is total and returns `""`), and in the loop the URL yields no
links and no enqueues, but is still marked visited and still written
to the sink. -/
theorem denied_fetch_step (w : World) (cfg : Cfg) (s : St) (url : String) (depth : Nat)
    (rest : List (String × Nat)) (body : String)
    (hq : s.queue = (url, depth) :: rest)
    (hu : url ∉ s.visited) (hd : depth < cfg.maxDepth)
    (hr : is_crawlable w url (robotsTxtUrl url) = true)
    (ha : appendFailsAt w s.appends = false)
    (hpage : w.page url = .resp 403 body) :
    fetch_html w url = "" ∧
    crawlStep w cfg s = .next
      { queue := rest
        visited := s.visited ++ [url]
        firstEntry := (appendRecord cfg s.firstEntry url).2
        file := s.file ++ (appendRecord cfg s.firstEntry url).1
        appends := s.appends + 1
        events := s.events ++ [.dequeue url depth, .visit url depth, .robotsQuery url depth] ++
            [.fetch url depth] ++ [.write url depth] } := by
  have hf : fetch_html w url = "" := by
    simp [fetch_html, hpage]
  refine ⟨hf, ?_⟩
  rw [crawlStep_accept w cfg s url depth rest hq hu hd hr ha, hf]
  simp

/-- A world whose seed page answers 403. -/
def test403World : World :=
  { testWorld with page := fun _ => .resp 403 "forbidden" }

/-- Witness for C5: on the 403 world the seed is dequeued, visited and
written with no links enqueued. -/
theorem denied_fetch_step_witness :
    fetch_html test403World "https://example.com" = "" ∧
    crawlStep test403World testCfg (initSt testCfg) = .next
      { queue := []
        visited := [] ++ ["https://example.com"]
        firstEntry := (appendRecord testCfg true "https://example.com").2
        file := "" ++ (appendRecord testCfg true "https://example.com").1
        appends := 1
        events := [] ++ [.dequeue "https://example.com" 0, .visit "https://example.com" 0,
            .robotsQuery "https://example.com" 0] ++ [.fetch "https://example.com" 0] ++
            [.write "https://example.com" 0] } :=
  denied_fetch_step test403World testCfg (initSt testCfg) "https://example.com" 0 [] "forbidden"
    rfl (by decide) (by decide) rfl rfl rfl

/-! ## Claim C9 -/

/-- **C9.**  A robots-disallowed URL is added to the visited set and
the iteration then moves on: no fetch event, no enqueue, no sink
write, file and flag untouched — visited but never written. -/
theorem robots_denied_step (w : World) (cfg : Cfg) (s : St) (url : String) (depth : Nat)
    (rest : List (String × Nat))
    (hq : s.queue = (url, depth) :: rest)
    (hu : url ∉ s.visited) (hd : depth < cfg.maxDepth)
    (hr : is_crawlable w url (robotsTxtUrl url) = false) :
    crawlStep w cfg s = .next { s with
      queue := rest
      visited := s.visited ++ [url]
      events := s.events ++ [.dequeue url depth, .visit url depth, .robotsQuery url depth] ++
        [.robotsSkip url depth] } ∧
    writtenUrls (s.events ++ [.dequeue url depth, .visit url depth, .robotsQuery url depth] ++
        [.robotsSkip url depth]) = writtenUrls s.events := by
  constructor
  · rw [crawlStep, hq]
    dsimp only
    rw [if_neg (by simp [hu]; omega), if_pos hr]
  · simp [writtenUrls_append]

/-- A world whose robots.txt denies every URL with a 200 policy. -/
def testDenyRobotsWorld : World :=
  { testWorld with
    robots := fun _ => some (200, "User-agent: *\nDisallow: /")
    canFetch := fun _ _ => false }

/-- Witness for C9: the seed is visited but skipped on the denying
world. -/
theorem robots_denied_step_witness :
    crawlStep testDenyRobotsWorld testCfg (initSt testCfg) = .next
      { initSt testCfg with
        queue := []
        visited := [] ++ ["https://example.com"]
        events := [] ++ [.dequeue "https://example.com" 0, .visit "https://example.com" 0,
          .robotsQuery "https://example.com" 0] ++ [.robotsSkip "https://example.com" 0] } ∧
    writtenUrls ([] ++ [.dequeue "https://example.com" 0, .visit "https://example.com" 0,
        .robotsQuery "https://example.com" 0] ++ [.robotsSkip "https://example.com" 0]) =
      writtenUrls (initSt testCfg).events :=
  robots_denied_step testDenyRobotsWorld testCfg (initSt testCfg) "https://example.com" 0 []
    rfl (by decide) (by decide) rfl

/-! ## Claim C10 -/

/-- **C10.**  Link resolution: an extracted href that starts with the
literal `"http"` is kept verbatim; any other non-empty href is the
plain string concatenation of the base URL and the href.  In the loop
that base is `cfg.baseUrl`, the seed URL of the session — not the URL
of the page the link was found on — and the resolved links are
enqueued at `depth + 1`. -/
theorem links_resolved_against_seed :
    (∀ (hrefs : List (Option String)) (base l : String),
      l ∈ parse_links hrefs base ↔ ∃ href, some href ∈ hrefs ∧ href ≠ "" ∧
        ((pyStartsWith href "http" = true ∧ l = href) ∨
         (pyStartsWith href "http" = false ∧ l = base ++ href))) ∧
    (∀ (w : World) (cfg : Cfg) (s : St) (url : String) (depth : Nat)
        (rest : List (String × Nat)),
      s.queue = (url, depth) :: rest → url ∉ s.visited → depth < cfg.maxDepth →
      is_crawlable w url (robotsTxtUrl url) = true →
      appendFailsAt w s.appends = false → fetch_html w url ≠ "" →
      crawlStep w cfg s = .next
        { queue := rest ++ (parse_links (w.hrefs (fetch_html w url)) cfg.baseUrl).map
              fun l => (l, depth + 1)
          visited := s.visited ++ [url]
          firstEntry := (appendRecord cfg s.firstEntry url).2
          file := s.file ++ (appendRecord cfg s.firstEntry url).1
          appends := s.appends + 1
          events := s.events ++ [.dequeue url depth, .visit url depth,
              .robotsQuery url depth] ++ [.fetch url depth] ++
              ((parse_links (w.hrefs (fetch_html w url)) cfg.baseUrl).map
                fun l => Ev.enqueue l (depth + 1)) ++
              [.write url depth] }) := by
  constructor
  · intro hrefs base l
    constructor
    · intro hl
      rw [parse_links, List.mem_dedup, List.mem_filterMap] at hl
      obtain ⟨a, ha, hres⟩ := hl
      cases a with
      | none => simp [resolveHref] at hres
      | some href =>
        by_cases h0 : href = ""
        · simp [resolveHref, h0] at hres
        · by_cases hh : pyStartsWith href "http" = true
          · refine ⟨href, ha, h0, Or.inl ⟨hh, ?_⟩⟩
            have := hres
            simp [resolveHref, h0, hh] at this
            exact this.symm
          · refine ⟨href, ha, h0, Or.inr ⟨by simpa using hh, ?_⟩⟩
            have := hres
            simp [resolveHref, h0, hh] at this
            exact this.symm
    · rintro ⟨href, ha, h0, ⟨hh, rfl⟩ | ⟨hh, rfl⟩⟩
      · rw [parse_links, List.mem_dedup, List.mem_filterMap]
        exact ⟨some l, ha, by simp [resolveHref, h0, hh]⟩
      · rw [parse_links, List.mem_dedup, List.mem_filterMap]
        exact ⟨some href, ha, by simp [resolveHref, h0, hh]⟩
  · intro w cfg s url depth rest hq hu hd hr ha hhtml
    rw [crawlStep_accept w cfg s url depth rest hq hu hd hr ha]
    simp [hhtml]

/-- Witness for C10: on the test world the seed's relative href `/a`
is enqueued as the seed URL with `/a` appended, and the absolute href
verbatim. -/
theorem links_resolved_against_seed_witness :
    ("https://example.com/a" ∈ parse_links [some "/a", some "http://b.com", none, some ""]
        "https://example.com" ↔ ∃ href, some href ∈ [some "/a", some "http://b.com", none,
          some ""] ∧ href ≠ "" ∧
        ((pyStartsWith href "http" = true ∧ "https://example.com/a" = href) ∨
         (pyStartsWith href "http" = false ∧
           "https://example.com/a" = "https://example.com" ++ href))) ∧
    crawlStep testWorld testCfg (initSt testCfg) = .next
      { queue := [] ++ (parse_links (testWorld.hrefs (fetch_html testWorld
            "https://example.com")) testCfg.baseUrl).map fun l => (l, 0 + 1)
        visited := [] ++ ["https://example.com"]
        firstEntry := (appendRecord testCfg true "https://example.com").2
        file := "" ++ (appendRecord testCfg true "https://example.com").1
        appends := 1
        events := [] ++ [.dequeue "https://example.com" 0, .visit "https://example.com" 0,
            .robotsQuery "https://example.com" 0] ++ [.fetch "https://example.com" 0] ++
            ((parse_links (testWorld.hrefs (fetch_html testWorld "https://example.com"))
              testCfg.baseUrl).map fun l => Ev.enqueue l (0 + 1)) ++
            [.write "https://example.com" 0] } :=
  ⟨links_resolved_against_seed.1 [some "/a", some "http://b.com", none, some ""]
      "https://example.com" "https://example.com/a",
    links_resolved_against_seed.2 testWorld testCfg (initSt testCfg) "https://example.com" 0 []
      rfl (by decide) (by decide) rfl rfl (by decide)⟩

/-! ## Claim C6 (corrected) -/

/-- A world on which the initial `open(output_file_path, "w")` raises
`OSError`. -/
def testOpenFailWorld : World :=
  { testWorld with openFails := true }

/-- **C6, counterexample.**  The claim says a sink I/O error makes
`crawl` return `None`.  On a world whose sink open fails, `crawl`
instead propagates the exception (`OSError` is not in the `except`
tuple of line 196): the outcome is `raised`, not `returned none`. -/
theorem sink_error_counterexample :
    testOpenFailWorld.openFails = true ∧
    crawl testOpenFailWorld testCfg 10 = some .raised ∧
    crawl testOpenFailWorld testCfg 10 ≠ some (.returned none) := by
  refine ⟨rfl, rfl, by decide⟩

/-- **C6, amended.**  A sink I/O error aborts the session, but by an
exception that propagates out of `crawl` rather than a `None` return:
when the open fails, when a per-record append fails mid-loop
(`.ioErr`), or when the closing-fragment append of the json format
fails after the frontier drains, the outcome is `raised` and the
process exit status is non-zero; and whenever `crawl` does return a
value, that value is the output filename — the `None` branch is
reserved for the caught HTTP/request/value errors, which sink failures
are not. -/
theorem sink_error_aborts (w : World) (cfg : Cfg) (fuel : Nat) :
    (w.openFails = true → crawl w cfg fuel = some .raised ∧ exitCode .raised ≠ 0) ∧
    (∀ s, crawlRun w cfg fuel = (s, .ioErr) →
      crawl w cfg fuel = some .raised ∧ exitCode .raised ≠ 0) ∧
    (∀ s, crawlRun w cfg fuel = (s, .finished) → cfg.format = "json" →
      appendFailsAt w s.appends = true →
      crawl w cfg fuel = some .raised ∧ exitCode .raised ≠ 0) ∧
    (∀ r, crawl w cfg fuel = some (.returned r) → r = some (outputFilename cfg)) := by
  refine ⟨?_, ?_, ?_, ?_⟩
  · intro ho
    rw [crawl, if_pos ho]
    exact ⟨rfl, by decide⟩
  · intro s hio
    by_cases ho : w.openFails
    · rw [crawl, if_pos ho]
      exact ⟨rfl, by decide⟩
    · rw [crawl, if_neg ho, hio]
      exact ⟨rfl, by decide⟩
  · intro s hfin hj ha
    by_cases ho : w.openFails
    · rw [crawl, if_pos ho]
      exact ⟨rfl, by decide⟩
    · rw [crawl, if_neg ho, hfin]
      dsimp only
      rw [if_pos ⟨hj, ha⟩]
      exact ⟨rfl, by decide⟩
  · intro r hr
    rw [crawl] at hr
    by_cases ho : w.openFails
    · rw [if_pos ho] at hr
      exact absurd hr (by simp)
    · rw [if_neg ho] at hr
      rcases h : crawlRun w cfg fuel with ⟨s, st⟩
      rw [h] at hr
      cases st with
      | finished =>
        dsimp only at hr
        by_cases hj : cfg.format = "json" ∧ appendFailsAt w s.appends = true
        · rw [if_pos hj] at hr
          exact absurd hr (by simp)
        · rw [if_neg hj] at hr
          simpa using hr.symm
      | ioErr => exact absurd hr (by simp)
      | fuelOut => exact absurd hr (by simp)

/-- A world whose very first file-append operation raises `OSError`
(the initial open succeeds). -/
def testAppendFailWorld : World :=
  { testWorld with appendBudget := some 0 }

/-- A world allowing exactly the three record appends of the json test
session, so that only the closing-fragment append raises `OSError`. -/
def testCloserFailWorld : World :=
  { testWorld with appendBudget := some 3 }

/-- Witness for C6 (amended): the open-failure world, the world whose
first record append fails, and the json world whose closing append
fails all abort with a non-zero exit, while the successful test
session returns exactly the generated filename. -/
theorem sink_error_aborts_witness :
    (crawl testOpenFailWorld testCfg 10 = some .raised ∧ exitCode .raised ≠ 0) ∧
    (crawl testAppendFailWorld testCfg 10 = some .raised ∧ exitCode .raised ≠ 0) ∧
    (crawl testCloserFailWorld { testCfg with format := "json" } 10 = some .raised ∧
      exitCode .raised ≠ 0) ∧
    some "example_20240101_000000.txt" = some (outputFilename testCfg) :=
  ⟨(sink_error_aborts testOpenFailWorld testCfg 10).1 rfl,
    (sink_error_aborts testAppendFailWorld testCfg 10).2.1
      (crawlRun testAppendFailWorld testCfg 10).1 (by decide),
    (sink_error_aborts testCloserFailWorld { testCfg with format := "json" } 10).2.2.1
      (crawlRun testCloserFailWorld { testCfg with format := "json" } 10).1 (by decide) rfl
      (by decide),
    (sink_error_aborts testWorld testCfg 10).2.2.2 (some "example_20240101_000000.txt")
      (by decide)⟩

/-! ## Claim C7 (corrected) -/

theorem pySplit1_fst (c : Char) (l : List Char) :
    (pySplit1 c l).1 = l.takeWhile (· ≠ c) := by
  induction l with
  | nil => rfl
  | cons x xs ih =>
    by_cases hx : x = c
    · simp [pySplit1, hx]
    · simp [pySplit1, hx, ih]

/-- **C7, counterexample.**  The claim says the file is named
`{netloc}_{timestamp}.{format}`.  For the seed domain `example.com`
the netloc of the normalized seed URL is `example.com`, but
`output_file.split('.')[0]` truncates it at the first dot, so the
generated name starts with `example`, not `example.com`. -/
theorem output_name_counterexample :
    netlocOf (normalizeDomain "example.com") = "example.com" ∧
    startCrawlFilename "example.com" "20240101_000000" "txt" = "example_20240101_000000.txt" ∧
    startCrawlFilename "example.com" "20240101_000000" "txt" ≠
      netlocOf (normalizeDomain "example.com") ++ "_" ++ "20240101_000000" ++ "." ++ "txt" := by
  refine ⟨by decide, by decide, by decide⟩

/-- **C7, amended.**  The output file is named
`{derived}_{timestamp}.{format}` inside the output directory, where
`derived` is the seed URL's netloc truncated at its first `.`
(`output_file.split('.')[0]`), not the full netloc. -/
theorem output_name_amended (domain timestamp format : String) :
    startCrawlFilename domain timestamp format =
      (⟨(netlocOf (normalizeDomain domain)).data.takeWhile (· ≠ '.')⟩ : String) ++ "_" ++
        timestamp ++ "." ++ format := by
  rw [startCrawlFilename, outputFilename, pyFirstDotSegment, pySplit1_fst]
  rfl

/-! ## A JSON delimiter scanner

A necessary condition for a character stream to parse as a JSON
document: scanning it left to right — tracking brace/bracket depth
outside string literals, skipping escape pairs inside them — must end
at depth zero, outside any string literal and not inside an escape.
A premature close bracket fails the scan outright. -/

/-- One scanner transition.  The state is (current nesting depth,
inside a string literal?, just after a backslash inside a literal?). -/
def scanStep (st : Nat × Bool × Bool) (c : Char) : Option (Nat × Bool × Bool) :=
  match st with
  | (d, inStr, esc) =>
    if esc then some (d, inStr, false)
    else if inStr then
      if c = '\\' then some (d, true, true)
      else if c = '"' then some (d, false, false)
      else some (d, true, false)
    else
      if c = '"' then some (d, true, false)
      else if c = '{' ∨ c = '[' then some (d + 1, false, false)
      else if c = '}' ∨ c = ']' then
        match d with
        | 0 => none
        | d' + 1 => some (d', false, false)
      else some (d, false, false)

/-- Scan a character stream. -/
def scanSt (st : Nat × Bool × Bool) : List Char → Option (Nat × Bool × Bool)
  | [] => some st
  | c :: cs =>
    match scanStep st c with
    | none => none
    | some st' => scanSt st' cs

/-- Balanced scan of the whole document from the initial state: holds
of every character stream that parses as a JSON document. -/
def jsonBalanced (s : String) : Prop :=
  scanSt (0, false, false) s.data = some (0, false, false)

instance (s : String) : Decidable (jsonBalanced s) := by
  unfold jsonBalanced; infer_instance

theorem scanSt_append (a b : List Char) :
    ∀ st, scanSt st (a ++ b) =
      match scanSt st a with
      | none => none
      | some st' => scanSt st' b := by
  induction a with
  | nil => intro st; rfl
  | cons c cs ih =>
    intro st
    rw [List.cons_append, scanSt, scanSt]
    cases scanStep st c with
    | none => rfl
    | some st' => exact ih st'

/-- Composition form of `scanSt_append`. -/
theorem scanSt_trans {a : List Char} {st st' : Nat × Bool × Bool} (b : List Char)
    (h : scanSt st a = some st') : scanSt st (a ++ b) = scanSt st' b := by
  rw [scanSt_append, h]

/-! ## Scanner facts about the emitted fragments -/

theorem hexDig_mem (n : Nat) : hexDig n ∈ hexChars := by
  unfold hexDig
  rcases h : hexChars.get? n with _ | c
  · rw [List.getD_eq_getD_get?, h]; decide
  · rw [List.getD_eq_getD_get?, h]
    exact List.get?_mem h

theorem hexDig_ne_quote (n : Nat) : hexDig n ≠ '"' := by
  intro he
  have hm := hexDig_mem n
  rw [he] at hm
  exact absurd hm (by decide)

theorem hexDig_ne_backslash (n : Nat) : hexDig n ≠ '\\' := by
  intro he
  have hm := hexDig_mem n
  rw [he] at hm
  exact absurd hm (by decide)

theorem scanSt_inStr_safe (d : Nat) (c : Char) (cs : List Char)
    (hb : c ≠ '\\') (hq : c ≠ '"') :
    scanSt (d, true, false) (c :: cs) = scanSt (d, true, false) cs := by
  simp [scanSt, scanStep, hb, hq]

theorem scanSt_escape_pair (d : Nat) (x : Char) (cs : List Char) :
    scanSt (d, true, false) ('\\' :: x :: cs) = scanSt (d, true, false) cs := by
  simp [scanSt, scanStep]

theorem scanSt_in_quote (d : Nat) (cs : List Char) :
    scanSt (d, true, false) ('"' :: cs) = scanSt (d, false, false) cs := by
  simp [scanSt, scanStep]

theorem scanSt_out_quote (d : Nat) (cs : List Char) :
    scanSt (d, false, false) ('"' :: cs) = scanSt (d, true, false) cs := by
  simp [scanSt, scanStep]

theorem scanSt_out_open (d : Nat) (c : Char) (cs : List Char) (h : c = '{' ∨ c = '[') :
    scanSt (d, false, false) (c :: cs) = scanSt (d + 1, false, false) cs := by
  have hq : c ≠ '"' := by rcases h with rfl | rfl <;> decide
  simp [scanSt, scanStep, hq, h]

theorem scanSt_out_close (d : Nat) (c : Char) (cs : List Char) (h : c = '}' ∨ c = ']') :
    scanSt (d + 1, false, false) (c :: cs) = scanSt (d, false, false) cs := by
  have hq : c ≠ '"' := by rcases h with rfl | rfl <;> decide
  have ho : ¬(c = '{' ∨ c = '[') := by rcases h with rfl | rfl <;> decide
  simp [scanSt, scanStep, hq, ho, h]

theorem scanSt_out_other (d : Nat) (c : Char) (cs : List Char)
    (hq : c ≠ '"') (ho : ¬(c = '{' ∨ c = '[')) (hc : ¬(c = '}' ∨ c = ']')) :
    scanSt (d, false, false) (c :: cs) = scanSt (d, false, false) cs := by
  simp [scanSt, scanStep, hq, ho, hc]

theorem scanSt_u4 (d m : Nat) (rest : List Char) :
    scanSt (d, true, false) (('\\' :: 'u' :: hex4 m) ++ rest) =
      scanSt (d, true, false) rest := by
  rw [hex4]
  simp only [List.cons_append, List.nil_append]
  rw [scanSt_escape_pair,
    scanSt_inStr_safe _ _ _ (hexDig_ne_backslash _) (hexDig_ne_quote _),
    scanSt_inStr_safe _ _ _ (hexDig_ne_backslash _) (hexDig_ne_quote _),
    scanSt_inStr_safe _ _ _ (hexDig_ne_backslash _) (hexDig_ne_quote _),
    scanSt_inStr_safe _ _ _ (hexDig_ne_backslash _) (hexDig_ne_quote _)]

theorem scanSt_escChar (d : Nat) (c : Char) (rest : List Char) :
    scanSt (d, true, false) (jsonEscapeChar c ++ rest) = scanSt (d, true, false) rest := by
  rw [jsonEscapeChar]
  by_cases h1 : c = '"'
  · rw [if_pos h1]; exact scanSt_escape_pair d _ _
  rw [if_neg h1]
  by_cases h2 : c = '\\'
  · rw [if_pos h2]; exact scanSt_escape_pair d _ _
  rw [if_neg h2]
  by_cases h3 : c = '\n'
  · rw [if_pos h3]; exact scanSt_escape_pair d _ _
  rw [if_neg h3]
  by_cases h4 : c = '\r'
  · rw [if_pos h4]; exact scanSt_escape_pair d _ _
  rw [if_neg h4]
  by_cases h5 : c = '\t'
  · rw [if_pos h5]; exact scanSt_escape_pair d _ _
  rw [if_neg h5]
  by_cases h6 : c.toNat = 8
  · rw [if_pos h6]; exact scanSt_escape_pair d _ _
  rw [if_neg h6]
  by_cases h7 : c.toNat = 12
  · rw [if_pos h7]; exact scanSt_escape_pair d _ _
  rw [if_neg h7]
  by_cases h8 : c.toNat < 32
  · rw [if_pos h8]; exact scanSt_u4 d _ rest
  rw [if_neg h8]
  by_cases h9 : c.toNat ≤ 126
  · rw [if_pos h9]; exact scanSt_inStr_safe d c rest h2 h1
  rw [if_neg h9]
  by_cases h10 : c.toNat < 65536
  · rw [if_pos h10]; exact scanSt_u4 d _ rest
  rw [if_neg h10, List.append_assoc, scanSt_u4, scanSt_u4]

theorem scanSt_jsonEscape (d : Nat) (l : List Char) :
    ∀ rest, scanSt (d, true, false) (jsonEscape l ++ rest) = scanSt (d, true, false) rest := by
  induction l with
  | nil => intro rest; rw [jsonEscape]; rfl
  | cons c cs ih =>
    intro rest
    rw [jsonEscape, List.append_assoc, scanSt_escChar, ih]

theorem scanSt_recordPrefix (d : Nat) (rest : List Char) :
    scanSt (d, false, false) ("\x7b\"url\": \"".data ++ rest) =
      scanSt (d + 1, true, false) rest := by
  show scanSt (d, false, false)
    ('{' :: '"' :: 'u' :: 'r' :: 'l' :: '"' :: ':' :: ' ' :: '"' :: rest) = _
  rw [scanSt_out_open _ _ _ (Or.inl rfl), scanSt_out_quote,
    scanSt_inStr_safe _ _ _ (by decide) (by decide),
    scanSt_inStr_safe _ _ _ (by decide) (by decide),
    scanSt_inStr_safe _ _ _ (by decide) (by decide),
    scanSt_in_quote,
    scanSt_out_other _ _ _ (by decide) (by decide) (by decide),
    scanSt_out_other _ _ _ (by decide) (by decide) (by decide),
    scanSt_out_quote]

theorem scanSt_record (d : Nat) (u : String) (rest : List Char) :
    scanSt (d, false, false) ((jsonRecord u).data ++ rest) =
      scanSt (d, false, false) rest := by
  have hmk : (⟨jsonEscape u.data⟩ : String).data = jsonEscape u.data := rfl
  have hcl : ("\"\x7d" : String).data = ['"', '}'] := rfl
  have hdata : (jsonRecord u).data =
      "\x7b\"url\": \"".data ++ (jsonEscape u.data ++ ['"', '}']) := by
    rw [jsonRecord, String.data_append, String.data_append, hmk, hcl, List.append_assoc]
  rw [hdata, List.append_assoc, scanSt_recordPrefix, List.append_assoc, scanSt_jsonEscape]
  simp only [List.cons_append, List.nil_append]
  rw [scanSt_in_quote, scanSt_out_close _ _ _ (Or.inl rfl)]

theorem appendRecord_json_true (cfg : Cfg) (hj : cfg.format = "json") (u : String) :
    (appendRecord cfg true u).1.data = (jsonRecord u).data ++ ['\n'] ∧
    (appendRecord cfg true u).2 = false := by
  rw [appendRecord, if_pos hj]
  constructor
  · show (("" : String) ++ jsonRecord u ++ "\n").data = _
    rw [String.data_append, String.data_append]
    rfl
  · rfl

theorem appendRecord_json_false (cfg : Cfg) (hj : cfg.format = "json") (u : String) :
    (appendRecord cfg false u).1.data = ',' :: ((jsonRecord u).data ++ ['\n']) ∧
    (appendRecord cfg false u).2 = false := by
  rw [appendRecord, if_pos hj]
  constructor
  · show ((("," : String)) ++ jsonRecord u ++ "\n").data = _
    rw [String.data_append, String.data_append]
    rfl
  · rfl

theorem scanSt_json_rest (cfg : Cfg) (hj : cfg.format = "json") (us : List String) :
    ∀ (d : Nat) (rest : List Char),
      scanSt (d, false, false) (renderFrom cfg false us ++ rest) =
        scanSt (d, false, false) rest := by
  induction us with
  | nil => intro d rest; rw [renderFrom]; rfl
  | cons u us ih =>
    intro d rest
    rw [renderFrom, (appendRecord_json_false cfg hj u).1, (appendRecord_json_false cfg hj u).2]
    simp only [List.cons_append, List.append_assoc]
    rw [scanSt_out_other _ _ _ (by decide) (by decide) (by decide)]
    rw [scanSt_record]
    simp only [List.cons_append, List.nil_append]
    rw [scanSt_out_other _ _ _ (by decide) (by decide) (by decide)]
    exact ih d rest

theorem scanSt_json_body (cfg : Cfg) (hj : cfg.format = "json") (us : List String)
    (d : Nat) (rest : List Char) :
    scanSt (d, false, false) (renderFrom cfg true us ++ rest) =
      scanSt (d, false, false) rest := by
  cases us with
  | nil => rw [renderFrom]; rfl
  | cons u us =>
    rw [renderFrom, (appendRecord_json_true cfg hj u).1, (appendRecord_json_true cfg hj u).2]
    simp only [List.append_assoc]
    rw [scanSt_record]
    simp only [List.cons_append, List.nil_append]
    rw [scanSt_out_other _ _ _ (by decide) (by decide) (by decide)]
    exact scanSt_json_rest cfg hj us d rest

theorem scanSt_jsonHeader (rest : List Char) :
    scanSt (0, false, false) (jsonHeader.data ++ rest) = scanSt (2, false, false) rest := by
  show scanSt (0, false, false)
    ('{' :: '"' :: 'u' :: 'r' :: 'l' :: 's' :: '"' :: ':' :: ' ' :: '[' :: rest) = _
  rw [scanSt_out_open _ _ _ (Or.inl rfl), scanSt_out_quote,
    scanSt_inStr_safe _ _ _ (by decide) (by decide),
    scanSt_inStr_safe _ _ _ (by decide) (by decide),
    scanSt_inStr_safe _ _ _ (by decide) (by decide),
    scanSt_inStr_safe _ _ _ (by decide) (by decide),
    scanSt_in_quote,
    scanSt_out_other _ _ _ (by decide) (by decide) (by decide),
    scanSt_out_other _ _ _ (by decide) (by decide) (by decide),
    scanSt_out_open _ _ _ (Or.inr rfl)]

/-! ## Claim C3 -/

/-- The body of the json document as the sink lays it out: the first
record followed by a newline, every later record preceded by the `","`
separator. -/
def jsonBodyL : List String → List Char
  | [] => []
  | u :: us =>
    ((jsonRecord u).data ++ ['\n']) ++
      (us.map fun v => ',' :: ((jsonRecord v).data ++ ['\n'])).flatten

theorem renderFrom_json_false (cfg : Cfg) (hj : cfg.format = "json") :
    ∀ us : List String, renderFrom cfg false us =
      (us.map fun v => ',' :: ((jsonRecord v).data ++ ['\n'])).flatten := by
  intro us
  induction us with
  | nil => rfl
  | cons u us ih =>
    rw [renderFrom, (appendRecord_json_false cfg hj u).1,
      (appendRecord_json_false cfg hj u).2, ih]
    simp

theorem renderFrom_json (cfg : Cfg) (hj : cfg.format = "json") (us : List String) :
    renderFrom cfg true us = jsonBodyL us := by
  cases us with
  | nil => rfl
  | cons u us =>
    rw [renderFrom, (appendRecord_json_true cfg hj u).1, (appendRecord_json_true cfg hj u).2,
      renderFrom_json_false cfg hj us, jsonBodyL]

/-- A session over `testWorld` in the json format. -/
def testJsonCfg : Cfg := { testCfg with format := "json" }

/-- **C3.**  In the json format, a session that reaches natural
completion produces exactly the single document
`jsonHeader ++ body ++ "]\x7d"`, where the body lists the written
records in order with a separator before every record after the first;
this document passes the JSON delimiter scan.  An interrupted session
— the file contents after any number of loop iterations, before the
closing fragment is appended — never passes the scan, so it is not
valid structured data. -/
theorem json_document_closure (w : World) (cfg : Cfg) (fuel : Nat)
    (hj : cfg.format = "json")
    (hfin : (crawlRun w cfg fuel).2 = .finished)
    (ha : appendFailsAt w (crawlRun w cfg fuel).1.appends = false) :
    (finalFile w cfg fuel).data =
      jsonHeader.data ++
        (jsonBodyL (writtenUrls (crawlRun w cfg fuel).1.events) ++ jsonCloser.data) ∧
    jsonBalanced (finalFile w cfg fuel) ∧
    ∀ fuel', ¬ jsonBalanced (crawlRun w cfg fuel').1.file := by
  have hfile : ∀ f', (crawlRun w cfg f').1.file.data =
      jsonHeader.data ++ renderFrom cfg true (writtenUrls (crawlRun w cfg f').1.events) := by
    intro f'
    have h := (inv_run w cfg f').fileEq
    rw [if_pos hj] at h
    exact h
  have hffile : (finalFile w cfg fuel).data =
      jsonHeader.data ++
        (renderFrom cfg true (writtenUrls (crawlRun w cfg fuel).1.events) ++
          jsonCloser.data) := by
    rw [finalFile, if_pos ⟨hj, hfin, ha⟩, String.data_append, hfile fuel, List.append_assoc]
  refine ⟨?_, ?_, ?_⟩
  · rw [hffile, renderFrom_json cfg hj]
  · show scanSt (0, false, false) (finalFile w cfg fuel).data = some (0, false, false)
    rw [hffile, scanSt_jsonHeader, scanSt_json_body cfg hj]
    decide
  · intro fuel'
    show ¬ scanSt (0, false, false) (crawlRun w cfg fuel').1.file.data =
      some (0, false, false)
    rw [hfile fuel', scanSt_jsonHeader]
    have hb := scanSt_json_body cfg hj (writtenUrls (crawlRun w cfg fuel').1.events) 2 []
    rw [List.append_nil] at hb
    rw [hb]
    decide

/-- Witness for C3: the completed json session over `testWorld` scans
as balanced, and the same session interrupted after two iterations does
not. -/
theorem json_document_closure_witness :
    jsonBalanced (finalFile testWorld testJsonCfg 10) ∧
    ¬ jsonBalanced (crawlRun testWorld testJsonCfg 2).1.file :=
  ⟨(json_document_closure testWorld testJsonCfg 10 rfl rfl rfl).2.1,
    (json_document_closure testWorld testJsonCfg 10 rfl rfl rfl).2.2 2⟩

/-! ## Claim C8 -/

theorem renderFrom_txt (cfg : Cfg) (hj : cfg.format ≠ "json") (hc : cfg.format ≠ "csv") :
    ∀ (first : Bool) (us : List String),
      renderFrom cfg first us = (us.map fun u => u.data ++ ['\n']).flatten := by
  intro first us
  induction us generalizing first with
  | nil => rfl
  | cons u us ih =>
    have h1 : (appendRecord cfg first u).1 = u ++ "\n" := by
      rw [appendRecord, if_neg hj, if_neg hc]
    have h2 : (appendRecord cfg first u).2 = first := by
      rw [appendRecord, if_neg hj, if_neg hc]
    rw [renderFrom, h1, h2, ih first, String.data_append, List.map_cons, List.flatten_cons]

theorem renderFrom_csv (cfg : Cfg) (hc : cfg.format = "csv") (hj : cfg.format ≠ "json") :
    ∀ (first : Bool) (us : List String),
      renderFrom cfg first us = (us.map fun u => csvField u ++ ['\r', '\n']).flatten := by
  intro first us
  induction us generalizing first with
  | nil => rfl
  | cons u us ih =>
    have h1 : (appendRecord cfg first u).1 = csvLine u := by
      rw [appendRecord, if_neg hj, if_pos hc]
    have h2 : (appendRecord cfg first u).2 = first := by
      rw [appendRecord, if_neg hj, if_pos hc]
    rw [renderFrom, h1, h2, ih first, List.map_cons, List.flatten_cons]
    rfl

theorem pySplit1_sep (c : Char) (a : List Char) (ha : c ∉ a) (b : List Char) :
    pySplit1 c (a ++ c :: b) = (a, (pySplit1 c b).1 :: (pySplit1 c b).2) := by
  induction a with
  | nil => simp [pySplit1]
  | cons x xs ih =>
    have hx : ¬ x = c := fun h => ha (h ▸ List.mem_cons_self x xs)
    have ha' : c ∉ xs := fun h => ha (List.mem_cons_of_mem _ h)
    simp [pySplit1, hx, ih ha']

theorem pySplitAll_flatten (c : Char) :
    ∀ (ls : List (List Char)), (∀ l ∈ ls, c ∉ l) →
      pySplitAll c ((ls.map fun l => l ++ [c]).flatten) = ls ++ [[]] := by
  intro ls
  induction ls with
  | nil => intro _; rfl
  | cons a ls ih =>
    intro h
    have ha : c ∉ a := h a (List.mem_cons_self _ _)
    have h' : ∀ l ∈ ls, c ∉ l := fun l hl => h l (List.mem_cons_of_mem _ hl)
    have hshape : ((a :: ls).map fun l => l ++ [c]).flatten =
        a ++ c :: (ls.map fun l => l ++ [c]).flatten := by
      simp
    rw [hshape, pySplitAll, pySplit1_sep c a ha]
    show a :: pySplitAll c ((ls.map fun l => l ++ [c]).flatten) = (a :: ls) ++ [[]]
    rw [ih h']
    rfl

/-- Undoing of quote doubling within a quoted CSV field, as the csv
reader performs it. -/
def csvUnescape : List Char → List Char
  | [] => []
  | [x] => [x]
  | x :: y :: t =>
    if x = '"' ∧ y = '"' then '"' :: csvUnescape t else x :: csvUnescape (y :: t)

/-- Removal of the trailing `'\r'` of a CRLF-terminated line after
splitting on `'\n'`. -/
def stripCR (l : List Char) : List Char :=
  if l.getLast? = some '\r' then l.dropLast else l

/-- Decoding of a stripped single-field CSV record: unquote and
undouble if the field was quoted. -/
def csvParseStripped : List Char → List Char
  | [] => []
  | x :: t => if x = '"' then csvUnescape t.dropLast else x :: t

/-- Decoding of one single-field CSV record line: strip the carriage
return, then unquote and undouble if the field was quoted. -/
def csvParseLine (l : List Char) : List Char :=
  csvParseStripped (stripCR l)

theorem csvUnescape_escape : ∀ l : List Char, csvUnescape (csvEscape l) = l := by
  intro l
  induction l with
  | nil => rfl
  | cons x t ih =>
    by_cases hx : x = '"'
    · subst hx
      rw [csvEscape, if_pos rfl, csvUnescape, if_pos ⟨rfl, rfl⟩, ih]
    · rw [csvEscape, if_neg hx]
      rcases ht : csvEscape t with _ | ⟨y, t'⟩
      · rw [ht] at ih
        rw [csvUnescape]
        rw [show t = [] from ih.symm]
      · rw [csvUnescape, if_neg (fun hh => hx hh.1), ← ht, ih]

theorem mem_csvEscape {x : Char} : ∀ {l : List Char}, x ∈ csvEscape l → x ∈ l ∨ x = '"' := by
  intro l
  induction l with
  | nil => intro h; exact absurd h (List.not_mem_nil x)
  | cons y t ih =>
    intro h
    rw [csvEscape] at h
    by_cases hy : y = '"'
    · rw [if_pos hy] at h
      rcases List.mem_cons.mp h with rfl | h
      · exact Or.inr rfl
      · rcases List.mem_cons.mp h with rfl | h
        · exact Or.inr rfl
        · rcases ih h with h | h
          · exact Or.inl (List.mem_cons_of_mem _ h)
          · exact Or.inr h
    · rw [if_neg hy] at h
      rcases List.mem_cons.mp h with rfl | h
      · exact Or.inl (List.mem_cons_self _ _)
      · rcases ih h with h | h
        · exact Or.inl (List.mem_cons_of_mem _ h)
        · exact Or.inr h

theorem csvField_no_nl (u : String) (hn : ('\n' : Char) ∉ u.data) :
    ('\n' : Char) ∉ csvField u := by
  rw [csvField]
  split_ifs with h
  · intro hm
    rcases List.mem_cons.mp hm with h' | hm
    · exact absurd h' (by decide)
    · rcases List.mem_append.mp hm with hm | hm
      · rcases mem_csvEscape hm with hm | hm
        · exact hn hm
        · exact absurd hm (by decide)
      · exact absurd hm (by decide)
  · exact hn

theorem csvParseLine_roundtrip (u : String) :
    csvParseLine (csvField u ++ ['\r']) = u.data := by
  have hstrip : stripCR (csvField u ++ ['\r']) = csvField u := by
    rw [stripCR, if_pos (by simp)]
    simp
  rw [csvParseLine, hstrip]
  by_cases hq : csvNeedsQuote u.data = true
  · rw [csvField, if_pos hq]
    have hdl : (csvEscape u.data ++ ['"']).dropLast = csvEscape u.data := by simp
    show (if ('"' : Char) = '"' then csvUnescape ((csvEscape u.data ++ ['"']).dropLast)
      else '"' :: (csvEscape u.data ++ ['"'])) = u.data
    rw [if_pos rfl, hdl, csvUnescape_escape]
  · rw [csvField, if_neg hq]
    rcases hu : u.data with _ | ⟨x, t⟩
    · rfl
    · have hx : x ≠ '"' := by
        intro hxq
        apply hq
        rw [csvNeedsQuote, hu, hxq]
        simp
      show (if x = '"' then csvUnescape t.dropLast else x :: t) = x :: t
      rw [if_neg hx]

/-- A session over `testWorld` in the csv format. -/
def testCsvCfg : Cfg := { testCfg with format := "csv" }

/-- **C8.**  In the txt and csv formats the file is append-only: after
any number of loop iterations (so after any number N of sink writes)
its contents are exactly the records of the first N written URLs in
append order — one URL plus `'\n'` per record for txt, one CSV-encoded
field plus CRLF per record for csv — and splitting the file on line
terminators decodes it back to exactly those N URLs, provided the URLs
contain no line-terminator characters themselves. -/
theorem sink_append_safety (w : World) (cfg : Cfg) (fuel : Nat) :
    (cfg.format ≠ "json" → cfg.format ≠ "csv" →
      (crawlRun w cfg fuel).1.file.data =
        ((writtenUrls (crawlRun w cfg fuel).1.events).map fun u => u.data ++ ['\n']).flatten ∧
      ((∀ u ∈ writtenUrls (crawlRun w cfg fuel).1.events, ('\n' : Char) ∉ u.data) →
        pySplitAll '\n' (crawlRun w cfg fuel).1.file.data =
          (writtenUrls (crawlRun w cfg fuel).1.events).map String.data ++ [[]])) ∧
    (cfg.format = "csv" →
      (crawlRun w cfg fuel).1.file.data =
        ((writtenUrls (crawlRun w cfg fuel).1.events).map
          fun u => csvField u ++ ['\r', '\n']).flatten ∧
      ((∀ u ∈ writtenUrls (crawlRun w cfg fuel).1.events,
          ('\n' : Char) ∉ u.data ∧ ('\r' : Char) ∉ u.data) →
        (pySplitAll '\n' (crawlRun w cfg fuel).1.file.data).dropLast.map csvParseLine =
          (writtenUrls (crawlRun w cfg fuel).1.events).map String.data)) := by
  constructor
  · intro hj hc
    have hfile : (crawlRun w cfg fuel).1.file.data =
        ((writtenUrls (crawlRun w cfg fuel).1.events).map fun u => u.data ++ ['\n']).flatten := by
      have h := (inv_run w cfg fuel).fileEq
      rw [if_neg hj] at h
      rw [h, List.nil_append, renderFrom_txt cfg hj hc]
    refine ⟨hfile, fun hnl => ?_⟩
    have := pySplitAll_flatten '\n'
      ((writtenUrls (crawlRun w cfg fuel).1.events).map String.data)
      (by
        intro l hl
        rcases List.mem_map.mp hl with ⟨u, hu, rfl⟩
        exact hnl u hu)
    rw [hfile]
    rw [List.map_map] at this
    exact this
  · intro hc
    have hj : cfg.format ≠ "json" := by rw [hc]; decide
    have hfile : (crawlRun w cfg fuel).1.file.data =
        ((writtenUrls (crawlRun w cfg fuel).1.events).map
          fun u => csvField u ++ ['\r', '\n']).flatten := by
      have h := (inv_run w cfg fuel).fileEq
      rw [if_neg hj] at h
      rw [h, List.nil_append, renderFrom_csv cfg hc hj]
    refine ⟨hfile, fun hnl => ?_⟩
    have hshape : ((writtenUrls (crawlRun w cfg fuel).1.events).map
        fun u => csvField u ++ ['\r', '\n']).flatten =
        (((writtenUrls (crawlRun w cfg fuel).1.events).map
          fun u => csvField u ++ ['\r']).map fun l => l ++ ['\n']).flatten := by
      rw [List.map_map]
      congr 1
      apply List.map_congr_left
      intro u _
      simp
    have hsplit := pySplitAll_flatten '\n'
      ((writtenUrls (crawlRun w cfg fuel).1.events).map fun u => csvField u ++ ['\r'])
      (by
        intro l hl
        rcases List.mem_map.mp hl with ⟨u, hu, rfl⟩
        intro hm
        rcases List.mem_append.mp hm with hm | hm
        · exact csvField_no_nl u (hnl u hu).1 hm
        · exact absurd hm (by decide))
    rw [hfile, hshape, hsplit, List.dropLast_concat, List.map_map]
    apply List.map_congr_left
    intro u _
    exact csvParseLine_roundtrip u

/-- Witness for C8: on the concrete txt session the file splits into
exactly the written URLs, and likewise for the csv session after
decoding. -/
theorem sink_append_safety_witness :
    pySplitAll '\n' (crawlRun testWorld testCfg 10).1.file.data =
      (writtenUrls (crawlRun testWorld testCfg 10).1.events).map String.data ++ [[]] ∧
    (pySplitAll '\n' (crawlRun testWorld testCsvCfg 10).1.file.data).dropLast.map
        csvParseLine =
      (writtenUrls (crawlRun testWorld testCsvCfg 10).1.events).map String.data :=
  ⟨((sink_append_safety testWorld testCfg 10).1 (by decide) (by decide)).2 (by decide),
    ((sink_append_safety testWorld testCsvCfg 10).2 rfl).2 (by decide)⟩

end Crawler
